import Mathlib

/-!
Verification of the admission-control / fallback-selection engine of
`dev_server.py` (flashcraft dev server).

Shallow embedding notes:
* The SQLite tables `usage_day (day, scope) -> count` and
  `usage_minute (minute, scope) -> count` are modelled as total functions
  returning the stored count, with 0 for an absent row (exactly how the
  code reads a missing row).
* Every call to `_consume_limit` opens its own connection; the leading
  `DELETE` statement opens a write transaction, so the whole
  read/decide/increment sequence is serialized by SQLite (WAL, single
  writer).  An evaluation is therefore modelled as one atomic step on the
  ledger state.  A denied evaluation returns before `conn.commit()`, so
  all of its writes (including the prune DELETE) roll back: the model
  returns the input ledger unchanged on denial.
* Wall-clock inputs of one evaluation are gathered in `TimeInfo`:
  the UTC day string (`now.strftime("%Y-%m-%d")`), the integer
  `int((next_midnight - now).total_seconds())`, and the unix time in
  seconds (`time.time()`, from which the code derives the minute bucket
  `int(time.time() // 60)` and `int(time.time() % 60)`).
-/

/-- Wall-clock facts one evaluation of `_consume_limit` observes. -/
structure TimeInfo where
  day : String
  secsUntilMidnight : Nat
  nowSec : Nat
deriving DecidableEq

/-- `int(time.time() // 60)`: the fixed 60-second-aligned minute bucket. -/
def TimeInfo.minuteBucket (t : TimeInfo) : Nat :=
  t.nowSec / 60

/-- The durable counter ledger: the two SQLite tables of `_get_db`,
`usage_day` keyed by (day, scope) and `usage_minute` keyed by
(minute, scope).  An absent row reads as count 0. -/
structure Ledger where
  dayCount : String → String → Nat
  minuteCount : Nat → String → Nat

/-- The empty ledger (freshly created tables). -/
def Ledger.empty : Ledger :=
  { dayCount := fun _ _ => 0, minuteCount := fun _ _ => 0 }

/-- `DELETE FROM usage_minute WHERE minute < ?` with argument
`minute - 10`: prunes stale minute buckets.  (For `minute < 10` the Nat
truncated subtraction deletes nothing, matching Python where the
threshold would be negative.) -/
def Ledger.prune (l : Ledger) (minute : Nat) : Ledger :=
  { l with minuteCount := fun b s => if b < minute - 10 then 0 else l.minuteCount b s }

/-- The two `INSERT ... ON CONFLICT ... DO UPDATE SET count = count + 1`
statements: consume one unit by bumping the (day, scope) and
(minute, scope) counters together. -/
def Ledger.consumeUnit (l : Ledger) (day : String) (minute : Nat) (scope : String) : Ledger :=
  { dayCount := fun d s => if d = day ∧ s = scope then l.dayCount d s + 1 else l.dayCount d s,
    minuteCount := fun b s => if b = minute ∧ s = scope then l.minuteCount b s + 1 else l.minuteCount b s }

/-- The `X-RateLimit-*` diagnostic headers built by `_consume_limit`
(values are rendered with `str(...)` in the code; we keep them numeric). -/
structure Headers where
  scope : String
  rpdLimit : Nat
  rpdUsed : Nat
  rpmLimit : Nat
  rpmUsed : Nat
deriving DecidableEq

/-- The `(allowed, retry_after, headers)` triple `_consume_limit` returns. -/
structure Decision where
  allowed : Bool
  retryAfter : Nat
  headers : Headers
deriving DecidableEq

/-- `DevHandler._consume_limit(scope, rpd_limit, rpm_limit)`: one
evaluation of the two-window limiter, returning the decision together
with the ledger state after the call (the input ledger when denied,
because the transaction rolls back before `conn.commit()`). -/
def _consume_limit (led : Ledger) (t : TimeInfo) (scope : String)
    (rpd_limit rpm_limit : Nat) : Decision × Ledger :=
  let minute := t.minuteBucket
  let pruned := led.prune minute
  let day_count := pruned.dayCount t.day scope
  let minute_count := pruned.minuteCount minute scope
  if rpd_limit > 0 ∧ day_count ≥ rpd_limit then
    ({ allowed := false,
       retryAfter := max 60 t.secsUntilMidnight,
       headers := ⟨scope, rpd_limit, day_count, rpm_limit, minute_count⟩ }, led)
  else if rpm_limit > 0 ∧ minute_count ≥ rpm_limit then
    ({ allowed := false,
       retryAfter := max 1 (60 - t.nowSec % 60),
       headers := ⟨scope, rpd_limit, day_count, rpm_limit, minute_count⟩ }, led)
  else
    ({ allowed := true,
       retryAfter := 0,
       headers := ⟨scope, rpd_limit, day_count + 1, rpm_limit, minute_count + 1⟩ },
     pruned.consumeUnit t.day minute scope)

/-- Test driver: run `_consume_limit` once per element of `ts`, threading
the ledger (each call is one serialized SQLite transaction, so any
interleaving of concurrent attempts is equivalent to some such
sequential run). -/
def runSeq (scope : String) (rpd_limit rpm_limit : Nat) :
    Ledger → List TimeInfo → List Decision × Ledger
  | led, [] => ([], led)
  | led, t :: ts =>
      let r := _consume_limit led t scope rpd_limit rpm_limit
      let rest := runSeq scope rpd_limit rpm_limit r.2 ts
      (r.1 :: rest.1, rest.2)

/-- `_default_model_limits(model)`: built-in (RPD, RPM) defaults per
known resource name. -/
def _default_model_limits (model : String) : Nat × Nat :=
  if model = ("gemini-2.5-flash") then (20, 5)
  else if model = ("gemini-2.5-flash-lite") then (20, 10)
  else if model = ("gemini-3-flash") then (20, 5)
  else if model.startsWith ("gemma-3-") then (14400, 30)
  else (20, 5)

/-- JSON values, as produced by `json.loads` (object keys are always
strings there; numbers are restricted to integers in this embedding). -/
inductive JVal where
  | jnull : JVal
  | jbool : Bool → JVal
  | jnum : Int → JVal
  | jstr : String → JVal
  | jarr : List JVal → JVal
  | jobj : List (String × JVal) → JVal

/-- Python `dict` lookup over the entry list of a JSON object
(a duplicated key keeps its last value, as in `json.loads`). -/
def jget (kvs : List (String × JVal)) (key : String) : Option JVal :=
  kvs.foldl (fun acc kv => if kv.1 = key then some kv.2 else acc) none

/-- Python `int(x)` on the result of a `dict.get`: succeeds on integers
and bools, on integer-shaped strings via parsing, and fails (raises) on
`None`, `null`, floats-as-others, lists and objects. -/
def jToInt : Option JVal → Option Int
  | some (JVal.jnum n) => some n
  | some (JVal.jbool b) => some (if b then 1 else 0)
  | some (JVal.jstr s) => s.toInt?
  | _ => none

/-- One entry of the override object: the value must itself be an object
whose `rpd` and `rpm` fields both convert with `int(...)`; the limits
are clamped with `max(0, ...)`. -/
def entryLimits (v : JVal) : Option (Nat × Nat) :=
  match v with
  | JVal.jobj kvs =>
      match jToInt (jget kvs ("rpd")), jToInt (jget kvs ("rpm")) with
      | some rpd_i, some rpm_i => some (rpd_i.toNat, rpm_i.toNat)
      | _, _ => none
  | _ => none

/-- `_parse_model_limits()`: the `GEMINI_MODEL_LIMITS_JSON` override map.
The input is the outcome of `json.loads` on the raw value: `none` when
the string is empty or not valid JSON (the `except` path).  Anything but
a JSON object yields the empty map; malformed entries are skipped
(`continue`); later duplicate keys overwrite earlier ones. -/
def _parse_model_limits (inp : Option JVal) : String → Option (Nat × Nat) :=
  match inp with
  | some (JVal.jobj kvs) =>
      kvs.foldl
        (fun acc kv =>
          match entryLimits kv.2 with
          | some p => fun s => if s = kv.1 then some p else acc s
          | none => acc)
        (fun _ => none)
  | _ => fun _ => none

/-- `model_limits.get(model, _default_model_limits(model))`: the limit
pair actually used for a resource. -/
def effectiveLimits (overrides : String → Option (Nat × Nat)) (model : String) : Nat × Nat :=
  (overrides model).getD (_default_model_limits model)

/-- The `(model, rate_limit_headers, retry_after_if_blocked)` result of
`_pick_model`, plus the ledger state after the call. -/
structure PickResult where
  model : Option String
  headers : Option Headers
  retryAfter : Nat
deriving DecidableEq

/-- The loop body of `_pick_model`, with the `last_headers` and
`max_retry_after` accumulators explicit. -/
def pickAux (t : TimeInfo) (overrides : String → Option (Nat × Nat))
    (allowed : String → Bool) :
    Ledger → Option Headers → Nat → List String → PickResult × Ledger
  | led, lastH, maxR, [] =>
      (⟨none, lastH, if maxR = 0 then 60 else maxR⟩, led)
  | led, lastH, maxR, m :: rest =>
      if allowed m then
        let lims := effectiveLimits overrides m
        let r := _consume_limit led t (("gemini:") ++ m) lims.1 lims.2
        if r.1.allowed then (⟨some m, some r.1.headers, 0⟩, r.2)
        else pickAux t overrides allowed r.2 (some r.1.headers) (max maxR r.1.retryAfter) rest
      else pickAux t overrides allowed led lastH maxR rest

/-- `DevHandler._pick_model(preferred, allowed)`: first-fit fallback
selection over the preference list.  `max_retry_after or 60` is the
final retry value on exhaustion. -/
def _pick_model (led : Ledger) (t : TimeInfo) (overrides : String → Option (Nat × Nat))
    (preferred : List String) (allowed : String → Bool) : PickResult × Ledger :=
  pickAux t overrides allowed led none 0 preferred

/-- Outcome of the admission-control portion of `do_POST` on the
fallback path (`rl_headers` of a successful pick are kept as they are
attached to the eventual success response). -/
inductive ReqOutcome where
  | globalDenied : Nat → Headers → ReqOutcome
  | allDenied : Nat → Option Headers → ReqOutcome
  | admitted : String → Option Headers → ReqOutcome
deriving DecidableEq

/-- The admission-control portion of `do_POST` for a fallback-selection
request: the optional `site_total` global cap is consulted first, once
per inbound request; a global denial returns immediately (429), and
only then is `_pick_model` run over the candidates. -/
def do_POST_admission (led : Ledger) (t : TimeInfo) (total_rpd_limit total_rpm_limit : Nat)
    (overrides : String → Option (Nat × Nat)) (preferred : List String)
    (allowed : String → Bool) : ReqOutcome × Ledger :=
  if total_rpd_limit > 0 ∨ total_rpm_limit > 0 then
    let g := _consume_limit led t ("site_total") total_rpd_limit total_rpm_limit
    if g.1.allowed then
      let p := _pick_model g.2 t overrides preferred allowed
      match p.1.model with
      | some m => (ReqOutcome.admitted m p.1.headers, p.2)
      | none => (ReqOutcome.allDenied p.1.retryAfter p.1.headers, p.2)
    else
      (ReqOutcome.globalDenied g.1.retryAfter g.1.headers, g.2)
  else
    let p := _pick_model led t overrides preferred allowed
    match p.1.model with
    | some m => (ReqOutcome.admitted m p.1.headers, p.2)
    | none => (ReqOutcome.allDenied p.1.retryAfter p.1.headers, p.2)

/-- The decision the fallback loop computes for one candidate on a given
ledger (the scope is the candidate's own resource scope). -/
def candDecision (led : Ledger) (t : TimeInfo) (overrides : String → Option (Nat × Nat))
    (m : String) : Decision :=
  (_consume_limit led t (("gemini:") ++ m)
    (effectiveLimits overrides m).1 (effectiveLimits overrides m).2).1

/-- Fixture: one evaluation instant.  Day "D", 1000 s to midnight,
unix second 130 (minute bucket 2, second-of-minute 10). -/
def tFix : TimeInfo :=
  ⟨("D"), 1000, 130⟩

/-- Fixture: a ledger holding one unit in every day scope. -/
def ledFix1 : Ledger :=
  ⟨fun _ _ => 1, fun _ _ => 0⟩

/-! ### Basic lemmas about one evaluation -/

theorem prune_dayCount (l : Ledger) (m : Nat) : (l.prune m).dayCount = l.dayCount :=
  rfl

theorem prune_minuteCount_recent (l : Ledger) (m b : Nat) (s : String) (h : ¬ b < m - 10) :
    (l.prune m).minuteCount b s = l.minuteCount b s := by
  simp [Ledger.prune, h]

theorem prune_minuteCount_current (l : Ledger) (m : Nat) (s : String) :
    (l.prune m).minuteCount m s = l.minuteCount m s :=
  prune_minuteCount_recent l m m s (by omega)

/-- Unfolding of `_consume_limit` with the reads expressed directly on
the incoming ledger (pruning never touches day counters nor the current
minute bucket). -/
theorem consume_eq (led : Ledger) (t : TimeInfo) (scope : String) (N M : Nat) :
    _consume_limit led t scope N M =
      (if N > 0 ∧ led.dayCount t.day scope ≥ N then
         (⟨false, max 60 t.secsUntilMidnight,
           ⟨scope, N, led.dayCount t.day scope, M, led.minuteCount t.minuteBucket scope⟩⟩, led)
       else if M > 0 ∧ led.minuteCount t.minuteBucket scope ≥ M then
         (⟨false, max 1 (60 - t.nowSec % 60),
           ⟨scope, N, led.dayCount t.day scope, M, led.minuteCount t.minuteBucket scope⟩⟩, led)
       else
         (⟨true, 0,
           ⟨scope, N, led.dayCount t.day scope + 1, M, led.minuteCount t.minuteBucket scope + 1⟩⟩,
          (led.prune t.minuteBucket).consumeUnit t.day t.minuteBucket scope)) := by
  simp only [_consume_limit, prune_dayCount, prune_minuteCount_current]

/-- A denied evaluation rolls its transaction back: the ledger is the
very same state. -/
theorem consume_denied_ledger (led : Ledger) (t : TimeInfo) (scope : String) (N M : Nat)
    (h : (_consume_limit led t scope N M).1.allowed = false) :
    (_consume_limit led t scope N M).2 = led := by
  rw [consume_eq] at *
  split_ifs at * <;> simp_all

/-- The allowed flag, as a function of the two reads. -/
theorem consume_allowed_iff (led : Ledger) (t : TimeInfo) (scope : String) (N M : Nat) :
    (_consume_limit led t scope N M).1.allowed = true ↔
      ((N = 0 ∨ led.dayCount t.day scope < N) ∧
       (M = 0 ∨ led.minuteCount t.minuteBucket scope < M)) := by
  rw [consume_eq]
  split_ifs with h1 h2 <;> simp <;> omega

/-- An allowed evaluation bumps the day counter and the current minute
counter of its scope by exactly one, together. -/
theorem consume_allowed_counts (led : Ledger) (t : TimeInfo) (scope : String) (N M : Nat)
    (h : (_consume_limit led t scope N M).1.allowed = true) :
    (_consume_limit led t scope N M).2.dayCount t.day scope
        = led.dayCount t.day scope + 1 ∧
    (_consume_limit led t scope N M).2.minuteCount t.minuteBucket scope
        = led.minuteCount t.minuteBucket scope + 1 := by
  rw [consume_eq] at *
  split_ifs at *
  all_goals simp_all [Ledger.consumeUnit, prune_dayCount, prune_minuteCount_current]

/-- No evaluation ever changes a day counter of another scope (nor any
minute counter of another scope). -/
theorem consume_other_scope (led : Ledger) (t : TimeInfo) (scope : String) (N M : Nat)
    (d s : String) (hs : s ≠ scope) (b : Nat) :
    (_consume_limit led t scope N M).2.dayCount d s = led.dayCount d s ∧
    ((_consume_limit led t scope N M).1.allowed = true →
      (_consume_limit led t scope N M).2.minuteCount b s
        = (led.prune t.minuteBucket).minuteCount b s) := by
  rw [consume_eq]
  split_ifs <;> simp_all [Ledger.consumeUnit, Ledger.prune]

/-! ### Sequences of evaluations -/

theorem runSeq_minute (scope d : String) (b N M c0 : Nat) (hM : 0 < M)
    (hDay : N = 0 ∨ c0 + M < N) :
    ∀ (ts : List TimeInfo) (led : Ledger) (m : Nat),
      (∀ t ∈ ts, t.day = d ∧ t.minuteBucket = b) →
      led.dayCount d scope = c0 + m → led.minuteCount b scope = m → m ≤ M →
      ∀ i dec, (runSeq scope N M led ts).1.get? i = some dec →
        dec.allowed = decide (m + i < M) ∧
        (M ≤ m + i → 1 ≤ dec.retryAfter ∧ dec.retryAfter ≤ 60) := by
  intro ts
  induction ts with
  | nil => intro led m _ _ _ _ i dec h; simp [runSeq] at h
  | cons t ts ih =>
    intro led m hday hcd hmc hmM i dec hget
    obtain ⟨htd, htb⟩ := hday t (by simp)
    have hdp : N = 0 ∨ led.dayCount t.day scope < N := by
      rw [htd, hcd]
      rcases hDay with h | h
      · exact Or.inl h
      · right; omega
    simp only [runSeq] at hget
    rcases i with _ | i
    · simp only [List.get?] at hget
      have hdec := Option.some.inj hget
      subst hdec
      rcases Nat.lt_or_ge m M with hmM' | hmM'
      · have ha : (_consume_limit led t scope N M).1.allowed = true := by
          rw [consume_allowed_iff]
          exact ⟨hdp, Or.inr (by rw [htb, hmc]; exact hmM')⟩
        refine ⟨?_, fun hle => by omega⟩
        rw [ha]
        simp
        omega
      · have hnd : ¬ (N > 0 ∧ led.dayCount t.day scope ≥ N) := by omega
        rw [consume_eq, if_neg hnd, if_pos ⟨hM, by rw [htb, hmc]; exact hmM'⟩]
        refine ⟨by simp; omega, fun _ =>
          ⟨le_max_left 1 _, by change max 1 (60 - t.nowSec % 60) ≤ 60; omega⟩⟩
    · simp only [List.get?] at hget
      rcases Nat.lt_or_ge m M with hmM' | hmM'
      · have ha : (_consume_limit led t scope N M).1.allowed = true := by
          rw [consume_allowed_iff]
          exact ⟨hdp, Or.inr (by rw [htb, hmc]; exact hmM')⟩
        have hcnt := consume_allowed_counts led t scope N M ha
        rw [htd, hcd] at hcnt
        rw [htb, hmc] at hcnt
        have := ih (_consume_limit led t scope N M).2 (m + 1)
          (fun t' ht' => hday t' (by simp [ht'])) hcnt.1 hcnt.2 (by omega) i dec hget
        refine ⟨?_, ?_⟩
        · rw [this.1, decide_eq_decide]; omega
        · intro hle; exact this.2 (by omega)
      · have hdeny : (_consume_limit led t scope N M).1.allowed = false := by
          rcases Bool.eq_false_or_eq_true (_consume_limit led t scope N M).1.allowed with h | h
          · rw [consume_allowed_iff] at h
            rw [htb, hmc] at h
            omega
          · exact h
        have hled := consume_denied_ledger led t scope N M hdeny
        rw [hled] at hget
        have := ih led m (fun t' ht' => hday t' (by simp [ht'])) hcd hmc hmM i dec hget
        refine ⟨?_, ?_⟩
        · rw [this.1, decide_eq_decide]; omega
        · intro hle; exact this.2 (by omega)

/-- Number of admissions of a same-day run against a daily limit `N`
with an unlimited minute dimension, starting from day count `c`. -/
theorem runSeq_day_countP (scope d : String) (N : Nat) (hN : 0 < N) :
    ∀ (ts : List TimeInfo) (led : Ledger) (c : Nat),
      (∀ t ∈ ts, t.day = d) → led.dayCount d scope = c →
      ((runSeq scope N 0 led ts).1.countP (fun dec => dec.allowed))
        = min ts.length (N - c) := by
  intro ts
  induction ts with
  | nil => intro led c _ _; simp [runSeq]
  | cons t ts ih =>
    intro led c hday hc
    have htd : t.day = d := hday t (by simp)
    simp only [runSeq, List.countP_cons]
    rcases Nat.lt_or_ge c N with hcN | hcN
    · have ha : (_consume_limit led t scope N 0).1.allowed = true := by
        rw [consume_allowed_iff]
        exact ⟨Or.inr (by rw [htd, hc]; exact hcN), Or.inl rfl⟩
      have hcnt := (consume_allowed_counts led t scope N 0 ha).1
      rw [htd, hc] at hcnt
      rw [ih (_consume_limit led t scope N 0).2 (c + 1)
        (fun t' ht' => hday t' (by simp [ht'])) hcnt]
      simp [ha]
      omega
    · have hdeny : (_consume_limit led t scope N 0).1.allowed = false := by
        rcases Bool.eq_false_or_eq_true (_consume_limit led t scope N 0).1.allowed with h | h
        · rw [consume_allowed_iff] at h
          rw [htd, hc] at h
          omega
        · exact h
      have hled := consume_denied_ledger led t scope N 0 hdeny
      rw [hled, ih led c (fun t' ht' => hday t' (by simp [ht'])) hc]
      simp [hdeny]
      omega

theorem runSeq_length (scope : String) (N M : Nat) :
    ∀ (ts : List TimeInfo) (led : Ledger),
      (runSeq scope N M led ts).1.length = ts.length := by
  intro ts
  induction ts with
  | nil => intro led; simp [runSeq]
  | cons t ts ih => intro led; simp [runSeq, ih]

/-- When every allow-listed candidate is denied, the fallback loop
returns no model, the headers of the last attempted candidate (folded
over the attempted list), the running maximum of the observed
retry-after values (with `or 60` applied), and the untouched ledger. -/
theorem pickAux_exhaust (led : Ledger) (t : TimeInfo)
    (overrides : String → Option (Nat × Nat)) (allowed : String → Bool) :
    ∀ (l : List String) (lastH : Option Headers) (maxR : Nat),
      (∀ m ∈ l.filter allowed, (candDecision led t overrides m).allowed = false) →
      pickAux t overrides allowed led lastH maxR l =
        (⟨none,
          (l.filter allowed).foldl
            (fun _ m => some (candDecision led t overrides m).headers) lastH,
          if (l.filter allowed).foldl
              (fun a m => max a (candDecision led t overrides m).retryAfter) maxR = 0
          then 60
          else (l.filter allowed).foldl
              (fun a m => max a (candDecision led t overrides m).retryAfter) maxR⟩,
         led) := by
  intro l
  induction l with
  | nil => intro lastH maxR _; simp [pickAux]
  | cons m l ih =>
    intro lastH maxR hden
    by_cases ham : allowed m
    · have hm : (candDecision led t overrides m).allowed = false :=
        hden m (by simp [List.filter_cons, ham])
      have hrest : ∀ m' ∈ l.filter allowed,
          (candDecision led t overrides m').allowed = false := by
        intro m' hm'
        exact hden m' (by simp [List.filter_cons, ham, hm'])
      have hled : (_consume_limit led t (("gemini:") ++ m)
          (effectiveLimits overrides m).1 (effectiveLimits overrides m).2).2 = led :=
        consume_denied_ledger _ _ _ _ _ hm
      simp only [pickAux, ham, if_true, candDecision] at hm ⊢
      rw [hm]
      simp only [Bool.false_eq_true, if_false, hled]
      rw [ih (some _) (max maxR _) hrest]
      simp [List.filter_cons, ham, candDecision]
    · have hrest : ∀ m' ∈ l.filter allowed,
          (candDecision led t overrides m').allowed = false := by
        intro m' hm'
        exact hden m' (by simp [List.filter_cons, ham, hm'])
      simp only [pickAux, ham, if_false]
      rw [ih lastH maxR hrest]
      simp [List.filter_cons, ham]

/-- The fallback loop touches only the `gemini:`-prefixed resource
scopes: day counters of any other scope are left unchanged. -/
theorem pickAux_day_other (t : TimeInfo) (overrides : String → Option (Nat × Nat))
    (allowed : String → Bool) (s : String) (hs : ∀ m : String, (("gemini:") ++ m) ≠ s) :
    ∀ (l : List String) (led : Ledger) (lastH : Option Headers) (maxR : Nat) (dday : String),
      (pickAux t overrides allowed led lastH maxR l).2.dayCount dday s
        = led.dayCount dday s := by
  intro l
  induction l with
  | nil => intro led lastH maxR dday; simp [pickAux]
  | cons m l ih =>
    intro led lastH maxR dday
    by_cases ham : allowed m
    · have hother := (consume_other_scope led t (("gemini:") ++ m)
        (effectiveLimits overrides m).1 (effectiveLimits overrides m).2
        dday s (Ne.symm (hs m)) 0).1
      simp only [pickAux, ham, if_true]
      by_cases hok : (_consume_limit led t (("gemini:") ++ m)
          (effectiveLimits overrides m).1 (effectiveLimits overrides m).2).1.allowed
      · simp only [hok, if_true]
        exact hother
      · simp only [hok, Bool.false_eq_true, if_false]
        rw [ih]
        exact hother
    · simp only [pickAux, ham, if_false]
      exact ih led lastH maxR dday

/-- No candidate's resource scope collides with the global scope. -/
theorem gscope_ne (m : String) : (("gemini:") ++ m) ≠ ("site_total") := by
  intro h
  have h2 : (("gemini:") ++ m).data = ("site_total").data := by rw [h]
  rw [String.data_append] at h2
  have h3 : ("gemini:").data = ['g', 'e', 'm', 'i', 'n', 'i', ':'] := rfl
  have h4 : ("site_total").data = ['s', 'i', 't', 'e', '_', 't', 'o', 't', 'a', 'l'] := rfl
  rw [h3, h4] at h2
  simp at h2

/-- Day-window sequence behaviour with an unlimited minute dimension:
starting from day count `c`, the i-th attempt of any same-day run is
allowed exactly when `c + i < N`, and every denied attempt carries
`retry_after ≥ 60`. -/
theorem runSeq_day (scope d : String) (N : Nat) (hN : 0 < N) :
    ∀ (ts : List TimeInfo) (led : Ledger) (c : Nat),
      (∀ t ∈ ts, t.day = d) → led.dayCount d scope = c →
      ∀ i dec, (runSeq scope N 0 led ts).1.get? i = some dec →
        dec.allowed = decide (c + i < N) ∧ (N ≤ c + i → 60 ≤ dec.retryAfter) := by
  intro ts
  induction ts with
  | nil => intro led c _ _ i dec h; simp [runSeq] at h
  | cons t ts ih =>
    intro led c hday hc i dec hget
    have htd : t.day = d := hday t (by simp)
    simp only [runSeq] at hget
    rcases i with _ | i
    · simp only [List.get?] at hget
      have hdec := Option.some.inj hget
      subst hdec
      rcases Nat.lt_or_ge c N with hcN | hcN
      · have ha : (_consume_limit led t scope N 0).1.allowed = true := by
          rw [consume_allowed_iff]
          exact ⟨Or.inr (by rw [htd, hc]; exact hcN), Or.inl rfl⟩
        refine ⟨?_, fun hle => by omega⟩
        rw [ha]
        simp
        omega
      · rw [consume_eq, if_pos ⟨hN, by rw [htd, hc]; exact hcN⟩]
        constructor
        · simp
          omega
        · intro _
          exact le_max_left 60 _
    · simp only [List.get?] at hget
      rcases Nat.lt_or_ge c N with hcN | hcN
      · have ha : (_consume_limit led t scope N 0).1.allowed = true := by
          rw [consume_allowed_iff]
          exact ⟨Or.inr (by rw [htd, hc]; exact hcN), Or.inl rfl⟩
        have hcnt := (consume_allowed_counts led t scope N 0 ha).1
        rw [htd, hc] at hcnt
        have := ih (_consume_limit led t scope N 0).2 (c + 1)
          (fun t' ht' => hday t' (by simp [ht'])) hcnt i dec hget
        refine ⟨?_, ?_⟩
        · rw [this.1]; rw [decide_eq_decide]; omega
        · intro hle; exact this.2 (by omega)
      · have hdeny : (_consume_limit led t scope N 0).1.allowed = false := by
          rcases Bool.eq_false_or_eq_true (_consume_limit led t scope N 0).1.allowed with h | h
          · rw [consume_allowed_iff] at h
            rw [htd, hc] at h
            omega
          · exact h
        have hled := consume_denied_ledger led t scope N 0 hdeny
        rw [hled] at hget
        have := ih led c (fun t' ht' => hday t' (by simp [ht'])) hc i dec hget
        refine ⟨?_, ?_⟩
        · rw [this.1]; rw [decide_eq_decide]; omega
        · intro hle; exact this.2 (by omega)

/-! ### Claim theorems -/

/-- Claim C1, counterexample: the claim asserts that for *every* limit
pair with `daily_limit = N > 0` exactly the first N sequential admission
attempts within a UTC day succeed.  With the limit pair
(daily_limit = 2, minute_limit = 1), a fresh scope and two attempts in
the same minute, only the first attempt succeeds: the second is denied
by the minute window while the day counter is still below N = 2. -/
theorem c1_counterexample :
    ((runSeq ("X") 2 1 Ledger.empty (List.replicate 2 tFix)).1.map Decision.allowed)
      = [true, false] := by
  decide

/-- Claim C1 (amended): if `daily_limit = N > 0` and the scope's day
counter for the current UTC day is at least N, the evaluation denies
with `retry_after = max(60, seconds until next UTC midnight)`; and,
provided the minute dimension never denies (`minute_limit = 0`), exactly
the first N same-day sequential attempts on a fresh scope succeed and
attempt N+1 (and every later one) is denied with `retry_after ≥ 60`. -/
theorem c1_amended_daily_limit :
    (∀ (led : Ledger) (t : TimeInfo) (scope : String) (N M : Nat),
      0 < N → N ≤ led.dayCount t.day scope →
      (_consume_limit led t scope N M).1.allowed = false ∧
      (_consume_limit led t scope N M).1.retryAfter = max 60 t.secsUntilMidnight) ∧
    (∀ (scope d : String) (N : Nat) (ts : List TimeInfo) (led : Ledger),
      0 < N → (∀ t ∈ ts, t.day = d) → led.dayCount d scope = 0 →
      ∀ i dec, (runSeq scope N 0 led ts).1.get? i = some dec →
        (dec.allowed = true ↔ i < N) ∧ (N ≤ i → 60 ≤ dec.retryAfter)) := by
  constructor
  · intro led t scope N M hN hge
    rw [consume_eq, if_pos ⟨hN, hge⟩]
    exact ⟨rfl, rfl⟩
  · intro scope d N ts led hN hday h0 i dec hget
    have h := runSeq_day scope d N hN ts led 0 hday h0 i dec hget
    refine ⟨?_, fun hle => h.2 (by omega)⟩
    rw [h.1]
    simp

/-- Witness for `c1_amended_daily_limit` at concrete inputs: a scope
whose day count is 3 with daily limit 3 is denied with
retry = max(60, 1000); on a fresh scope with daily limit 2 and three
same-day attempts, the attempt at index 2 is the first denial and
carries retry ≥ 60. -/
theorem c1_witness :
    ((_consume_limit ⟨fun _ _ => 3, fun _ _ => 0⟩ tFix ("X") 3 0).1.allowed = false ∧
     (_consume_limit ⟨fun _ _ => 3, fun _ _ => 0⟩ tFix ("X") 3 0).1.retryAfter
       = max 60 tFix.secsUntilMidnight) ∧
    (((⟨false, 1000, ⟨("X"), 2, 2, 0, 2⟩⟩ : Decision).allowed = true ↔ 2 < 2) ∧
     (2 ≤ 2 → 60 ≤ (⟨false, 1000, ⟨("X"), 2, 2, 0, 2⟩⟩ : Decision).retryAfter)) := by
  constructor
  · exact c1_amended_daily_limit.1 ⟨fun _ _ => 3, fun _ _ => 0⟩ tFix ("X") 3 0
      (by decide) (by decide)
  · exact c1_amended_daily_limit.2 ("X") ("D") 2 (List.replicate 3 tFix) Ledger.empty
      (by decide)
      (by intro t ht; rw [List.eq_of_mem_replicate ht]; rfl)
      (by decide) 2 ⟨false, 1000, ⟨("X"), 2, 2, 0, 2⟩⟩ (by decide)

/-- Claim C2: with `minute_limit = M > 0`, if the daily check passes
while the current minute-bucket counter is at least M, the evaluation
denies with `retry_after = max(1, 60 - (now_seconds mod 60))`; and in a
single minute bucket of a fresh scope whose daily check always passes,
exactly the first M sequential admissions succeed (so at most M) and the
M+1-th attempt is denied with `1 ≤ retry_after ≤ 60`. -/
theorem c2_minute_limit :
    (∀ (led : Ledger) (t : TimeInfo) (scope : String) (N M : Nat),
      0 < M → (N = 0 ∨ led.dayCount t.day scope < N) →
      M ≤ led.minuteCount t.minuteBucket scope →
      (_consume_limit led t scope N M).1.allowed = false ∧
      (_consume_limit led t scope N M).1.retryAfter = max 1 (60 - t.nowSec % 60)) ∧
    (∀ (scope d : String) (b N M : Nat) (ts : List TimeInfo) (led : Ledger),
      0 < M → (N = 0 ∨ M < N) →
      (∀ t ∈ ts, t.day = d ∧ t.minuteBucket = b) →
      led.dayCount d scope = 0 → led.minuteCount b scope = 0 →
      ∀ i dec, (runSeq scope N M led ts).1.get? i = some dec →
        (dec.allowed = true ↔ i < M) ∧
        (M ≤ i → dec.allowed = false ∧ 1 ≤ dec.retryAfter ∧ dec.retryAfter ≤ 60)) := by
  constructor
  · intro led t scope N M hM hday hge
    have hnd : ¬ (N > 0 ∧ led.dayCount t.day scope ≥ N) := by omega
    rw [consume_eq, if_neg hnd, if_pos ⟨hM, hge⟩]
    exact ⟨rfl, rfl⟩
  · intro scope d b N M ts led hM hday hts h0d h0m i dec hget
    have h := runSeq_minute scope d b N M 0 hM (by omega) ts led 0 hts
      (by omega) h0m (by omega) i dec hget
    constructor
    · rw [h.1]
      simp
    · intro hle
      refine ⟨?_, h.2 (by omega)⟩
      rw [h.1]
      simp
      omega

/-- Witness for `c2_minute_limit` at concrete inputs: minute count 5
with minute limit 5 (daily limit 0) denies with
retry = max(1, 60 - 130 mod 60); on a fresh scope with minute limit 1
and two attempts in minute bucket 2 the attempt at index 1 is denied
with retry in [1, 60]. -/
theorem c2_witness :
    ((_consume_limit ⟨fun _ _ => 0, fun _ _ => 5⟩ tFix ("X") 0 5).1.allowed = false ∧
     (_consume_limit ⟨fun _ _ => 0, fun _ _ => 5⟩ tFix ("X") 0 5).1.retryAfter
       = max 1 (60 - tFix.nowSec % 60)) ∧
    (((⟨false, 50, ⟨("X"), 0, 1, 1, 1⟩⟩ : Decision).allowed = true ↔ 1 < 1) ∧
     (1 ≤ 1 → (⟨false, 50, ⟨("X"), 0, 1, 1, 1⟩⟩ : Decision).allowed = false ∧
       1 ≤ (⟨false, 50, ⟨("X"), 0, 1, 1, 1⟩⟩ : Decision).retryAfter ∧
       (⟨false, 50, ⟨("X"), 0, 1, 1, 1⟩⟩ : Decision).retryAfter ≤ 60)) := by
  constructor
  · exact c2_minute_limit.1 ⟨fun _ _ => 0, fun _ _ => 5⟩ tFix ("X") 0 5
      (by decide) (Or.inl rfl) (by decide)
  · exact c2_minute_limit.2 ("X") ("D") 2 0 1 (List.replicate 2 tFix) Ledger.empty
      (by decide) (Or.inl rfl)
      (by intro t ht; rw [List.eq_of_mem_replicate ht]; exact ⟨rfl, rfl⟩)
      (by decide) (by decide) 1 ⟨false, 50, ⟨("X"), 0, 1, 1, 1⟩⟩ (by decide)

/-- Claim C3: a denied evaluation leaves the entire ledger state (in
particular both counters of the evaluated scope) unchanged and repeating
it yields the identical decision and counts; an allowed evaluation
increments the day counter and the current minute counter of its scope
by exactly 1, together — never one without the other. -/
theorem c3_atomic_counters :
    ∀ (led : Ledger) (t : TimeInfo) (scope : String) (N M : Nat),
      ((_consume_limit led t scope N M).1.allowed = false →
        (_consume_limit led t scope N M).2 = led ∧
        _consume_limit (_consume_limit led t scope N M).2 t scope N M
          = _consume_limit led t scope N M) ∧
      ((_consume_limit led t scope N M).1.allowed = true →
        (_consume_limit led t scope N M).2.dayCount t.day scope
          = led.dayCount t.day scope + 1 ∧
        (_consume_limit led t scope N M).2.minuteCount t.minuteBucket scope
          = led.minuteCount t.minuteBucket scope + 1) := by
  intro led t scope N M
  constructor
  · intro hdeny
    have hled := consume_denied_ledger led t scope N M hdeny
    exact ⟨hled, by rw [hled]⟩
  · exact consume_allowed_counts led t scope N M

/-- Witness for `c3_atomic_counters` at concrete inputs: a denied
evaluation (day count 1, daily limit 1) and an allowed one (fresh
ledger). -/
theorem c3_witness :
    ((_consume_limit ledFix1 tFix ("X") 1 0).1.allowed = false →
      (_consume_limit ledFix1 tFix ("X") 1 0).2 = ledFix1 ∧
      _consume_limit (_consume_limit ledFix1 tFix ("X") 1 0).2 tFix ("X") 1 0
        = _consume_limit ledFix1 tFix ("X") 1 0) ∧
    ((_consume_limit Ledger.empty tFix ("X") 1 0).1.allowed = true →
      (_consume_limit Ledger.empty tFix ("X") 1 0).2.dayCount tFix.day ("X")
        = Ledger.empty.dayCount tFix.day ("X") + 1 ∧
      (_consume_limit Ledger.empty tFix ("X") 1 0).2.minuteCount tFix.minuteBucket ("X")
        = Ledger.empty.minuteCount tFix.minuteBucket ("X") + 1) := by
  exact ⟨(c3_atomic_counters ledFix1 tFix ("X") 1 0).1,
         (c3_atomic_counters Ledger.empty tFix ("X") 1 0).2⟩

theorem countP_not_allowed (l : List Decision) :
    l.countP (fun dec => !dec.allowed) = l.length - l.countP (fun dec => dec.allowed) := by
  induction l with
  | nil => rfl
  | cons a l ih =>
    have hle := List.countP_le_length (p := fun dec => dec.allowed) (l := l)
    cases ha : a.allowed
    all_goals simp [List.countP_cons, ha, ih]
    all_goals omega

/-- Claim C4: the attempts are serialized by the ledger transaction, so
any interleaving of K identical simultaneous attempts is some sequential
run of them.  Firing K > N attempts against a fresh scope with daily
limit N (minute dimension unlimited) yields exactly N admissions and
K - N denials, in every order; and once a scope's day count has reached
N no further attempt is admitted, so no two concurrent attempts on an
exhausted scope can both succeed. -/
theorem c4_concurrent_cap :
    ∀ (scope d : String) (N K : Nat) (t : TimeInfo) (ts : List TimeInfo) (led : Ledger),
      0 < N → N < K → t.day = d →
      (∀ x ∈ ts, x = t) → ts.length = K →
      led.dayCount d scope = 0 →
      ((runSeq scope N 0 led ts).1.countP (fun dec => dec.allowed) = N ∧
       (runSeq scope N 0 led ts).1.countP (fun dec => !dec.allowed) = K - N ∧
       (∀ led2 : Ledger, N ≤ led2.dayCount d scope →
         (_consume_limit led2 t scope N 0).1.allowed = false)) := by
  intro scope d N K t ts led hN hNK htd hx hlen h0
  have hdays : ∀ x ∈ ts, TimeInfo.day x = d := fun x hxm => by rw [hx x hxm, htd]
  have hcount := runSeq_day_countP scope d N hN ts led 0 hdays h0
  rw [hlen] at hcount
  have hallow : (runSeq scope N 0 led ts).1.countP (fun dec => dec.allowed) = N := by
    rw [hcount]; omega
  refine ⟨hallow, ?_, ?_⟩
  · rw [countP_not_allowed, runSeq_length, hallow, hlen]
  · intro led2 hge
    rcases Bool.eq_false_or_eq_true (_consume_limit led2 t scope N 0).1.allowed with h | h
    · rw [consume_allowed_iff] at h
      rw [htd] at h
      omega
    · exact h

/-- Witness for `c4_concurrent_cap` at concrete inputs: 3 identical
attempts against a fresh scope with daily limit 2 produce exactly 2
admissions and 1 denial, and an attempt on an exhausted scope (day count
2, limit 2) is denied. -/
theorem c4_witness :
    (runSeq ("X") 2 0 Ledger.empty (List.replicate 3 tFix)).1.countP
        (fun dec => dec.allowed) = 2 ∧
    (runSeq ("X") 2 0 Ledger.empty (List.replicate 3 tFix)).1.countP
        (fun dec => !dec.allowed) = 3 - 2 ∧
    (_consume_limit ⟨fun _ _ => 2, fun _ _ => 0⟩ tFix ("X") 2 0).1.allowed = false := by
  have h := c4_concurrent_cap ("X") ("D") 2 3 tFix (List.replicate 3 tFix) Ledger.empty
    (by decide) (by decide) rfl (fun x hx => List.eq_of_mem_replicate hx) rfl rfl
  exact ⟨h.1, h.2.1, h.2.2 ⟨fun _ _ => 2, fun _ _ => 0⟩ (by decide)⟩

theorem pickAux_first_success (led : Ledger) (t : TimeInfo)
    (overrides : String → Option (Nat × Nat)) (allowed : String → Bool)
    (m : String) (rest : List String)
    (ham : allowed m = true)
    (hok : (candDecision led t overrides m).allowed = true) :
    ∀ (pre : List String) (lastH : Option Headers) (maxR : Nat),
      (∀ m' ∈ pre.filter allowed, (candDecision led t overrides m').allowed = false) →
      pickAux t overrides allowed led lastH maxR (pre ++ m :: rest) =
        (⟨some m, some (candDecision led t overrides m).headers, 0⟩,
         (_consume_limit led t (("gemini:") ++ m)
            (effectiveLimits overrides m).1 (effectiveLimits overrides m).2).2) := by
  intro pre
  induction pre with
  | nil =>
    intro lastH maxR _
    simp only [candDecision] at hok
    simp only [List.nil_append, pickAux, ham, if_true, hok, candDecision]
  | cons p pre ih =>
    intro lastH maxR hden
    by_cases hap : allowed p
    · have hp : (candDecision led t overrides p).allowed = false :=
        hden p (by simp [List.filter_cons, hap])
      have hled : (_consume_limit led t (("gemini:") ++ p)
          (effectiveLimits overrides p).1 (effectiveLimits overrides p).2).2 = led :=
        consume_denied_ledger _ _ _ _ _ hp
      have hrest : ∀ m' ∈ pre.filter allowed,
          (candDecision led t overrides m').allowed = false := by
        intro m' hm'
        exact hden m' (by simp [List.filter_cons, hap, hm'])
      simp only [candDecision] at hp
      simp only [List.cons_append, pickAux, hap, if_true, hp, Bool.false_eq_true, if_false,
        hled]
      exact ih _ _ hrest
    · simp only [List.cons_append, pickAux, hap, if_false]
      exact ih _ _ (fun m' hm' => hden m' (by simp [List.filter_cons, hap, hm']))

/-- Claim C5: the fallback selector walks the candidate list in the
given order: a candidate outside the allowed set is skipped with no
evaluation; the first allow-listed candidate whose own resource scope
(`gemini:<name>`) admits is returned immediately with its diagnostics
and retry 0, the remaining candidates untouched; and when every
attempted candidate is denied it returns no model, the diagnostics of
the last attempted candidate, and the running maximum of the observed
retry-after values. -/
theorem c5_fallback_selector :
    (∀ (led : Ledger) (t : TimeInfo) (overrides : String → Option (Nat × Nat))
        (m : String) (rest : List String) (allowed : String → Bool),
      allowed m = false →
      _pick_model led t overrides (m :: rest) allowed
        = _pick_model led t overrides rest allowed) ∧
    (∀ (led : Ledger) (t : TimeInfo) (overrides : String → Option (Nat × Nat))
        (allowed : String → Bool) (pre : List String) (m : String) (rest : List String),
      (∀ m' ∈ pre.filter allowed, (candDecision led t overrides m').allowed = false) →
      allowed m = true → (candDecision led t overrides m).allowed = true →
      _pick_model led t overrides (pre ++ m :: rest) allowed =
        (⟨some m, some (candDecision led t overrides m).headers, 0⟩,
         (_consume_limit led t (("gemini:") ++ m)
            (effectiveLimits overrides m).1 (effectiveLimits overrides m).2).2)) ∧
    (∀ (led : Ledger) (t : TimeInfo) (overrides : String → Option (Nat × Nat))
        (preferred : List String) (allowed : String → Bool),
      (∀ m ∈ preferred.filter allowed, (candDecision led t overrides m).allowed = false) →
      _pick_model led t overrides preferred allowed =
        (⟨none,
          (preferred.filter allowed).foldl
            (fun _ m => some (candDecision led t overrides m).headers) none,
          if (preferred.filter allowed).foldl
              (fun a m => max a (candDecision led t overrides m).retryAfter) 0 = 0
          then 60
          else (preferred.filter allowed).foldl
              (fun a m => max a (candDecision led t overrides m).retryAfter) 0⟩,
         led)) := by
  refine ⟨?_, ?_, ?_⟩
  · intro led t overrides m rest allowed ham
    simp only [_pick_model, pickAux, ham, Bool.false_eq_true, if_false]
  · intro led t overrides allowed pre m rest hden ham hok
    exact pickAux_first_success led t overrides allowed m rest ham hok pre none 0 hden
  · intro led t overrides preferred allowed hden
    exact pickAux_exhaust led t overrides allowed preferred none 0 hden

/-- Witness for `c5_fallback_selector` at concrete inputs: a skipped
disallowed candidate, a first-fit success after one exhausted candidate,
and a fully exhausted list. -/
theorem c5_witness :
    (_pick_model ledFix1 tFix (fun _ => some (1, 0)) (("a") :: [("b")]) (fun _ => false)
       = _pick_model ledFix1 tFix (fun _ => some (1, 0)) [("b")] (fun _ => false)) ∧
    (_pick_model ledFix1 tFix (fun s => if s = ("b") then some (5, 5) else some (1, 0))
        ([("a")] ++ ("b") :: [("c")]) (fun _ => true) =
      (⟨some ("b"),
        some (candDecision ledFix1 tFix
          (fun s => if s = ("b") then some (5, 5) else some (1, 0)) ("b")).headers, 0⟩,
       (_consume_limit ledFix1 tFix (("gemini:") ++ ("b"))
          (effectiveLimits (fun s => if s = ("b") then some (5, 5) else some (1, 0)) ("b")).1
          (effectiveLimits (fun s => if s = ("b") then some (5, 5) else some (1, 0)) ("b")).2).2)) ∧
    (_pick_model ledFix1 tFix (fun _ => some (1, 0)) [("a"), ("b")] (fun _ => true) =
      (⟨none,
        (([("a"), ("b")] : List String).filter (fun _ => true)).foldl
          (fun _ m => some (candDecision ledFix1 tFix (fun _ => some (1, 0)) m).headers) none,
        if (([("a"), ("b")] : List String).filter (fun _ => true)).foldl
            (fun a m => max a (candDecision ledFix1 tFix (fun _ => some (1, 0)) m).retryAfter) 0 = 0
        then 60
        else (([("a"), ("b")] : List String).filter (fun _ => true)).foldl
            (fun a m => max a (candDecision ledFix1 tFix (fun _ => some (1, 0)) m).retryAfter) 0⟩,
       ledFix1)) := by
  refine ⟨?_, ?_, ?_⟩
  · exact c5_fallback_selector.1 ledFix1 tFix (fun _ => some (1, 0)) ("a") [("b")]
      (fun _ => false) rfl
  · refine c5_fallback_selector.2.1 ledFix1 tFix
      (fun s => if s = ("b") then some (5, 5) else some (1, 0)) (fun _ => true)
      [("a")] ("b") [("c")] ?_ rfl (by decide)
    intro m' hm'
    simp at hm'
    subst hm'
    decide
  · refine c5_fallback_selector.2.2 ledFix1 tFix (fun _ => some (1, 0)) [("a"), ("b")]
      (fun _ => true) ?_
    intro m hm
    simp at hm
    rcases hm with hm | hm
    · subst hm; decide
    · subst hm; decide

/-- Claim C10: when the fallback selector attempts no candidate at all
(empty preference list, or no candidate allow-listed) it returns no
model, no diagnostics and retry exactly 60; in general on exhaustion the
returned retry is the maximum observed retry-after, except that a
maximum of 0 is replaced by 60 (`max_retry_after or 60`). -/
theorem c10_empty_fallback :
    (∀ (led : Ledger) (t : TimeInfo) (overrides : String → Option (Nat × Nat))
        (preferred : List String) (allowed : String → Bool),
      preferred.filter allowed = [] →
      _pick_model led t overrides preferred allowed = (⟨none, none, 60⟩, led)) ∧
    (∀ (led : Ledger) (t : TimeInfo) (overrides : String → Option (Nat × Nat))
        (preferred : List String) (allowed : String → Bool),
      (∀ m ∈ preferred.filter allowed, (candDecision led t overrides m).allowed = false) →
      (_pick_model led t overrides preferred allowed).1.retryAfter =
        (if (preferred.filter allowed).foldl
            (fun a m => max a (candDecision led t overrides m).retryAfter) 0 = 0
         then 60
         else (preferred.filter allowed).foldl
            (fun a m => max a (candDecision led t overrides m).retryAfter) 0)) := by
  constructor
  · intro led t overrides preferred allowed hfil
    have hden : ∀ m ∈ preferred.filter allowed,
        (candDecision led t overrides m).allowed = false := by
      rw [hfil]
      intro m hm
      simp at hm
    have h := pickAux_exhaust led t overrides allowed preferred none 0 hden
    rw [_pick_model, h, hfil]
    simp
  · intro led t overrides preferred allowed hden
    have h := pickAux_exhaust led t overrides allowed preferred none 0 hden
    rw [_pick_model, h]

/-- Witness for `c10_empty_fallback` at concrete inputs: a preference
list with no allow-listed member yields (none, none, 60); a fully
exhausted list yields the folded maximum retry-after. -/
theorem c10_witness :
    (_pick_model ledFix1 tFix (fun _ => some (1, 0)) [("a")] (fun _ => false)
       = (⟨none, none, 60⟩, ledFix1)) ∧
    ((_pick_model ledFix1 tFix (fun _ => some (1, 0)) [("a")] (fun _ => true)).1.retryAfter =
      (if (([("a")] : List String).filter (fun _ => true)).foldl
          (fun a m => max a (candDecision ledFix1 tFix (fun _ => some (1, 0)) m).retryAfter) 0 = 0
       then 60
       else (([("a")] : List String).filter (fun _ => true)).foldl
          (fun a m => max a (candDecision ledFix1 tFix (fun _ => some (1, 0)) m).retryAfter) 0)) := by
  constructor
  · exact c10_empty_fallback.1 ledFix1 tFix (fun _ => some (1, 0)) [("a")]
      (fun _ => false) rfl
  · refine c10_empty_fallback.2 ledFix1 tFix (fun _ => some (1, 0)) [("a")]
      (fun _ => true) ?_
    intro m hm
    simp at hm
    subst hm
    decide

/-- Claim C6: with a global scope configured (a non-zero site-total
limit), the `site_total` scope is evaluated first: a global denial is
returned immediately with the ledger untouched, so no resource scope's
counters are incremented; and when the global check admits, the
`site_total` day counter grows by exactly 1 for the whole inbound
request, however many fallback candidates `_pick_model` then attempts
(the fallback loop only ever touches `gemini:`-prefixed scopes). -/
theorem c6_global_first :
    ∀ (led : Ledger) (t : TimeInfo) (total_rpd_limit total_rpm_limit : Nat)
      (overrides : String → Option (Nat × Nat)) (preferred : List String)
      (allowed : String → Bool),
      (0 < total_rpd_limit ∨ 0 < total_rpm_limit) →
      (((_consume_limit led t ("site_total") total_rpd_limit total_rpm_limit).1.allowed
          = false →
        do_POST_admission led t total_rpd_limit total_rpm_limit overrides preferred allowed =
          (ReqOutcome.globalDenied
            (_consume_limit led t ("site_total") total_rpd_limit total_rpm_limit).1.retryAfter
            (_consume_limit led t ("site_total") total_rpd_limit total_rpm_limit).1.headers,
           led)) ∧
       ((_consume_limit led t ("site_total") total_rpd_limit total_rpm_limit).1.allowed
          = true →
        (do_POST_admission led t total_rpd_limit total_rpm_limit overrides preferred
            allowed).2.dayCount t.day ("site_total")
          = led.dayCount t.day ("site_total") + 1)) := by
  intro led t trpd trpm overrides preferred allowed hgate
  constructor
  · intro hdeny
    have hled := consume_denied_ledger led t ("site_total") trpd trpm hdeny
    rw [do_POST_admission, if_pos hgate]
    simp only [hdeny, Bool.false_eq_true, if_false, hled]
  · intro hallow
    have hup := (consume_allowed_counts led t ("site_total") trpd trpm hallow).1
    rw [do_POST_admission, if_pos hgate]
    simp only [hallow, if_true]
    have hpick := pickAux_day_other t overrides allowed ("site_total") gscope_ne preferred
      (_consume_limit led t ("site_total") trpd trpm).2 none 0 t.day
    cases hmod : (_pick_model (_consume_limit led t ("site_total") trpd trpm).2 t
        overrides preferred allowed).1.model with
    | none =>
      simp only [hmod]
      rw [_pick_model] at hmod ⊢
      rw [hpick, hup]
    | some m =>
      simp only [hmod]
      rw [_pick_model] at hmod ⊢
      rw [hpick, hup]

/-- Witness for `c6_global_first` at concrete inputs: site-total day
count 1 with global limit 1 denies and leaves the ledger untouched; on a
fresh ledger the whole request bumps the site-total day counter by
exactly 1. -/
theorem c6_witness :
    (do_POST_admission ledFix1 tFix 1 0 (fun _ => some (1, 0)) [("a")] (fun _ => true) =
      (ReqOutcome.globalDenied
        (_consume_limit ledFix1 tFix ("site_total") 1 0).1.retryAfter
        (_consume_limit ledFix1 tFix ("site_total") 1 0).1.headers, ledFix1)) ∧
    ((do_POST_admission Ledger.empty tFix 1 0 (fun _ => some (1, 0)) [("a")]
        (fun _ => true)).2.dayCount tFix.day ("site_total")
      = Ledger.empty.dayCount tFix.day ("site_total") + 1) := by
  exact ⟨(c6_global_first ledFix1 tFix 1 0 (fun _ => some (1, 0)) [("a")] (fun _ => true)
            (Or.inl (by decide))).1 (by decide),
         (c6_global_first Ledger.empty tFix 1 0 (fun _ => some (1, 0)) [("a")] (fun _ => true)
            (Or.inl (by decide))).2 (by decide)⟩

/-- Claim C7: every decision's diagnostics carry the scope name and the
configured values of both limits, and the used counts are the
pre-increment reads on denial and the post-increment counts on success
(equal to the committed counters); concretely, on a fresh scope with
limits (20, 5), six attempts in one minute report RPM-Used 1,2,3,4,5
while admitted, and the sixth is denied with RPM-Used 5 and a retry in
[1, 60]. -/
theorem c7_diagnostics :
    (∀ (led : Ledger) (t : TimeInfo) (scope : String) (N M : Nat),
      (_consume_limit led t scope N M).1.headers.scope = scope ∧
      (_consume_limit led t scope N M).1.headers.rpdLimit = N ∧
      (_consume_limit led t scope N M).1.headers.rpmLimit = M ∧
      ((_consume_limit led t scope N M).1.allowed = false →
        (_consume_limit led t scope N M).1.headers.rpdUsed = led.dayCount t.day scope ∧
        (_consume_limit led t scope N M).1.headers.rpmUsed
          = led.minuteCount t.minuteBucket scope) ∧
      ((_consume_limit led t scope N M).1.allowed = true →
        (_consume_limit led t scope N M).1.headers.rpdUsed
          = led.dayCount t.day scope + 1 ∧
        (_consume_limit led t scope N M).1.headers.rpmUsed
          = led.minuteCount t.minuteBucket scope + 1 ∧
        (_consume_limit led t scope N M).1.headers.rpdUsed
          = (_consume_limit led t scope N M).2.dayCount t.day scope ∧
        (_consume_limit led t scope N M).1.headers.rpmUsed
          = (_consume_limit led t scope N M).2.minuteCount t.minuteBucket scope)) ∧
    (((runSeq ("X") 20 5 Ledger.empty (List.replicate 6 tFix)).1.map
        (fun dec => (dec.allowed, dec.headers.rpmUsed)))
      = [(true, 1), (true, 2), (true, 3), (true, 4), (true, 5), (false, 5)]) ∧
    ((runSeq ("X") 20 5 Ledger.empty (List.replicate 6 tFix)).1.get? 5
      = some ⟨false, 50, ⟨("X"), 20, 5, 5, 5⟩⟩) := by
  refine ⟨?_, by decide, by decide⟩
  intro led t scope N M
  rw [consume_eq]
  split_ifs with h1 h2
  · exact ⟨rfl, rfl, rfl, fun _ => ⟨rfl, rfl⟩, fun hc => by simp at hc⟩
  · exact ⟨rfl, rfl, rfl, fun _ => ⟨rfl, rfl⟩, fun hc => by simp at hc⟩
  · refine ⟨rfl, rfl, rfl, fun hc => by simp at hc, fun _ => ⟨rfl, rfl, ?_, ?_⟩⟩
    · simp [Ledger.consumeUnit, prune_dayCount]
    · simp [Ledger.consumeUnit, prune_minuteCount_current]

/-- Witness for `c7_diagnostics`: its general part applied at a denied
evaluation (minute count 4 at limit 4) and at an allowed one. -/
theorem c7_witness :
    ((_consume_limit ⟨fun _ _ => 7, fun _ _ => 4⟩ tFix ("X") 0 4).1.allowed = false →
      (_consume_limit ⟨fun _ _ => 7, fun _ _ => 4⟩ tFix ("X") 0 4).1.headers.rpdUsed
        = (⟨fun _ _ => 7, fun _ _ => 4⟩ : Ledger).dayCount tFix.day ("X") ∧
      (_consume_limit ⟨fun _ _ => 7, fun _ _ => 4⟩ tFix ("X") 0 4).1.headers.rpmUsed
        = (⟨fun _ _ => 7, fun _ _ => 4⟩ : Ledger).minuteCount tFix.minuteBucket ("X")) ∧
    ((_consume_limit Ledger.empty tFix ("X") 20 5).1.allowed = true →
      (_consume_limit Ledger.empty tFix ("X") 20 5).1.headers.rpdUsed
        = Ledger.empty.dayCount tFix.day ("X") + 1 ∧
      (_consume_limit Ledger.empty tFix ("X") 20 5).1.headers.rpmUsed
        = Ledger.empty.minuteCount tFix.minuteBucket ("X") + 1 ∧
      (_consume_limit Ledger.empty tFix ("X") 20 5).1.headers.rpdUsed
        = (_consume_limit Ledger.empty tFix ("X") 20 5).2.dayCount tFix.day ("X") ∧
      (_consume_limit Ledger.empty tFix ("X") 20 5).1.headers.rpmUsed
        = (_consume_limit Ledger.empty tFix ("X") 20 5).2.minuteCount
            tFix.minuteBucket ("X")) := by
  exact ⟨(c7_diagnostics.1 ⟨fun _ _ => 7, fun _ _ => 4⟩ tFix ("X") 0 4).2.2.2.1,
         (c7_diagnostics.1 Ledger.empty tFix ("X") 20 5).2.2.2.2⟩

/-- Claim C8: a limit of 0 disables that dimension entirely — with
`rpd_limit = 0` a denial can only come from the minute dimension, and
with `rpm_limit = 0` only from the day dimension (with both 0 no denial
is possible) — yet every allowed consumption still increments both
counters by 1. -/
theorem c8_zero_disables :
    ∀ (led : Ledger) (t : TimeInfo) (scope : String),
      (∀ M : Nat, ((_consume_limit led t scope 0 M).1.allowed = false ↔
        (0 < M ∧ M ≤ led.minuteCount t.minuteBucket scope))) ∧
      (∀ N : Nat, ((_consume_limit led t scope N 0).1.allowed = false ↔
        (0 < N ∧ N ≤ led.dayCount t.day scope))) ∧
      (∀ N M : Nat, (_consume_limit led t scope N M).1.allowed = true →
        (_consume_limit led t scope N M).2.dayCount t.day scope
          = led.dayCount t.day scope + 1 ∧
        (_consume_limit led t scope N M).2.minuteCount t.minuteBucket scope
          = led.minuteCount t.minuteBucket scope + 1) := by
  intro led t scope
  refine ⟨?_, ?_, fun N M => consume_allowed_counts led t scope N M⟩
  · intro M
    rw [Bool.eq_false_iff, Ne, consume_allowed_iff]
    omega
  · intro N
    rw [Bool.eq_false_iff, Ne, consume_allowed_iff]
    omega

/-- Witness for `c8_zero_disables`: with day count 7 but daily limit 0,
denial is exactly the minute condition; with minute count 4 but minute
limit 0, denial is exactly the day condition; an allowed call bumps both
counters. -/
theorem c8_witness :
    ((_consume_limit ⟨fun _ _ => 7, fun _ _ => 4⟩ tFix ("X") 0 4).1.allowed = false ↔
      (0 < 4 ∧ 4 ≤ (⟨fun _ _ => 7, fun _ _ => 4⟩ : Ledger).minuteCount
          tFix.minuteBucket ("X"))) ∧
    ((_consume_limit ⟨fun _ _ => 7, fun _ _ => 4⟩ tFix ("X") 7 0).1.allowed = false ↔
      (0 < 7 ∧ 7 ≤ (⟨fun _ _ => 7, fun _ _ => 4⟩ : Ledger).dayCount tFix.day ("X"))) ∧
    ((_consume_limit Ledger.empty tFix ("X") 0 0).1.allowed = true →
      (_consume_limit Ledger.empty tFix ("X") 0 0).2.dayCount tFix.day ("X")
        = Ledger.empty.dayCount tFix.day ("X") + 1 ∧
      (_consume_limit Ledger.empty tFix ("X") 0 0).2.minuteCount tFix.minuteBucket ("X")
        = Ledger.empty.minuteCount tFix.minuteBucket ("X") + 1) := by
  exact ⟨(c8_zero_disables ⟨fun _ _ => 7, fun _ _ => 4⟩ tFix ("X")).1 4,
         (c8_zero_disables ⟨fun _ _ => 7, fun _ _ => 4⟩ tFix ("X")).2.1 7,
         (c8_zero_disables Ledger.empty tFix ("X")).2.2 0 0⟩

theorem parse_fold_none (k : String) :
    ∀ (kvs : List (String × JVal)) (acc : String → Option (Nat × Nat)),
      acc k = none →
      (∀ kv ∈ kvs, kv.1 = k → entryLimits kv.2 = none) →
      (kvs.foldl
        (fun acc kv =>
          match entryLimits kv.2 with
          | some p => fun s => if s = kv.1 then some p else acc s
          | none => acc) acc) k = none := by
  intro kvs
  induction kvs with
  | nil => intro acc hacc _; exact hacc
  | cons kv kvs ih =>
    intro acc hacc hbad
    simp only [List.foldl_cons]
    cases he : entryLimits kv.2 with
    | none =>
      simp only [he]
      exact ih acc hacc (fun kv' h' hk => hbad kv' (by simp [h']) hk)
    | some p =>
      simp only [he]
      apply ih
      · have hne : kv.1 ≠ k := by
          intro hk
          have hcontra := hbad kv (by simp) hk
          rw [he] at hcontra
          exact Option.noConfusion hcontra
        simp [Ne.symm hne, hacc]
      · exact fun kv' h' hk => hbad kv' (by simp [h']) hk

/-- Claim C9: parsing the `GEMINI_MODEL_LIMITS_JSON` override never
crashes (the embedding is a total function; every Python conversion
failure is a caught exception modelled by an `Option`): any input that
is not a JSON object — including invalid JSON, modelled as `none` —
yields the empty override map; any entry whose value is not an object or
whose `rpd`/`rpm` fields do not both convert to int is ignored; and a
resource missing from the override map falls back to its built-in
default limit pair. -/
theorem c9_parse_robust :
    (∀ (inp : Option JVal) (k : String),
      (∀ kvs : List (String × JVal), inp ≠ some (JVal.jobj kvs)) →
      _parse_model_limits inp k = none) ∧
    (∀ (kvs : List (String × JVal)) (k : String),
      (∀ kv ∈ kvs, kv.1 = k → entryLimits kv.2 = none) →
      _parse_model_limits (some (JVal.jobj kvs)) k = none) ∧
    (∀ (inp : Option JVal) (k : String),
      _parse_model_limits inp k = none →
      effectiveLimits (_parse_model_limits inp) k = _default_model_limits k) := by
  refine ⟨?_, ?_, ?_⟩
  · intro inp k hno
    cases inp with
    | none => rfl
    | some v =>
      cases v with
      | jobj kvs => exact absurd rfl (hno kvs)
      | jnull => rfl
      | jbool b => rfl
      | jnum n => rfl
      | jstr s => rfl
      | jarr xs => rfl
  · intro kvs k hbad
    exact parse_fold_none k kvs (fun _ => none) rfl hbad
  · intro inp k hnone
    unfold effectiveLimits
    rw [hnone]
    rfl

/-- Witness for `c9_parse_robust`: a JSON array yields no override for
any key, an object entry with a non-object value is ignored, and a
missing key falls back to the built-in default. -/
theorem c9_witness :
    (_parse_model_limits (some (JVal.jarr [])) ("gemini-2.5-flash") = none) ∧
    (_parse_model_limits (some (JVal.jobj [(("a"), JVal.jnum 3)])) ("a") = none) ∧
    (effectiveLimits (_parse_model_limits none) ("gemini-2.5-flash")
      = _default_model_limits ("gemini-2.5-flash")) := by
  refine ⟨c9_parse_robust.1 (some (JVal.jarr [])) ("gemini-2.5-flash") ?_,
          c9_parse_robust.2.1 [(("a"), JVal.jnum 3)] ("a") ?_,
          c9_parse_robust.2.2 none ("gemini-2.5-flash") rfl⟩
  · intro kvs h
    injection h with h2
    exact JVal.noConfusion h2
  · intro kv hkv hk
    rw [List.mem_singleton] at hkv
    subst hkv
    rfl
